import Mathlib

/-!
Shallow embedding of `multiqc/plots/plotly/bar.py` (the `BarPlot` class),
covering the parts of the bar-chart construction pipeline that the
specification's claims are about: the shape check in `Dataset.create`,
barmode selection, the chart-height computation, the absolute and
percent-mode axis-range computations, the percentage transform, and the
log-mode category reordering.

Numeric values are modelled as `Option ℚ`: `some q` is an ordinary number,
`none` stands for Python's float NaN ("missing"). The code paths that are
NaN-sensitive (`math.isnan` in the percentage transform) are embedded
accordingly; theorems about code paths whose Python behaviour is undefined
or degenerate on NaN (sorting, min/max) carry explicit no-NaN hypotheses.
-/

/-- A category value: `some q` is a number, `none` models float NaN. -/
abbrev Val := Option ℚ

/-- A raw category record as consumed by `BarPlot.Dataset.create`:
the `name` key (may be missing, modelled as `none`) and the `data` list.
The `color` field is not modelled: parsing it is delegated to the external
`spectra` library, which the spec lists as an out-of-scope collaborator,
and no claim depends on it. -/
structure RawCat where
  name : Option String
  data : List Val

/-- Embeds the validation loop of `BarPlot.Dataset.create` (bar.py lines
59-70): for each category, a missing `name` key raises `ValueError`, and
`assert len(samples) == len(cat["data"])` raises `AssertionError` whenever
the category's value list length differs from the sample count. Name
wrapping and color reformatting mutate fields that no later claim-relevant
stage reads, so they are not modelled. -/
def createCheck (samples : List String) : List RawCat → Except String Unit
  | [] => .ok ()
  | c :: cs =>
    if c.name = none then .error "ValueError: missing name key in category"
    else if samples.length = c.data.length then createCheck samples cs
    else .error "AssertionError: len(samples) != len(cat[data])"

/-- Embeds the completion stage (bar.py lines 249-252): a category whose
value list is shorter than the sample list is right-padded with zeros
(`cat["data"].extend([0] * (len(dataset.samples) - len(cat["data"])))`). -/
def completeData (nSamples : Nat) (data : List Val) : List Val :=
  if data.length < nSamples then data ++ List.replicate (nSamples - data.length) (some 0)
  else data

/-- Barmode selection (bar.py lines 117-119). The `stacking` entry of
`pconfig` is modelled as `Option (Option String)`: `none` means the key is
absent from the dict, `some none` means the key is present with value
`None`, `some (some s)` a string value. The code starts from `"relative"`
and switches to `"group"` only when the key is present and its value is in
`["group", "normal", None]`. -/
def barmodeOf (stacking : Option (Option String)) : String :=
  match stacking with
  | none => "relative"
  | some v =>
    if v = some "group" ∨ v = some "normal" ∨ v = none then "group" else "relative"

/-- Claim C3's reading of barmode selection, modelled from the claim's own
words for comparison with `barmodeOf`: "when the stacking option is absent,
or is `normal` or `group`, the plot is built in Grouped mode; any other
stacking value selects Stacked mode". -/
def claimedGroupedC3 (stacking : Option (Option String)) : Bool :=
  stacking = none ∨ stacking = some (some "normal") ∨ stacking = some (some "group")

/-- Per-bar pixel allowance, embedding `n_bars_to_size` (bar.py 128-137). -/
def n_bars_to_size (n : Nat) : Nat :=
  if n ≥ 30 then 15
  else if n ≥ 20 then 20
  else if n ≥ 10 then 25
  else if n ≥ 5 then 30
  else 35

/-- Effective number of bars (bar.py 123-126): the sample count, multiplied
by the maximum category count when the barmode is `"group"`. -/
def effNBars (maxNSamples maxNCats : Nat) (barmode : String) : Nat :=
  if barmode = "group" then maxNSamples * maxNCats else maxNSamples

/-- The base height before legend/margin adjustments (bar.py line 140):
`n_bars * n_bars_to_size(n_bars)`. -/
def baseHeight (maxNSamples maxNCats : Nat) (barmode : String) : Nat :=
  effNBars maxNSamples maxNCats barmode * n_bars_to_size (effNBars maxNSamples maxNCats barmode)

/-- Chart height computation, embedding bar.py lines 121-157 statement by
statement, including the redundant double `max` on line 146 and the order
of the 660 cap (before the +140 margin) and the 2560/300 clamps (after). -/
def plotHeight (maxNSamples maxNCats : Nat) (barmode : String) : Nat :=
  let height := baseHeight maxNSamples maxNCats barmode
  let legendHeight := 19 * maxNCats
  let height := max height (max height legendHeight)
  let height := min 660 (max height legendHeight)
  let height := height + 140
  let height := min 2560 height
  max 300 height

/-- Claim C2's height formula, modelled from the claim's own words for
comparison with `plotHeight`: "clamp(max(base height, legend height) + 140,
[300, 2560])" with the same base-height and legend-height definitions. -/
def claimedHeightC2 (maxNSamples maxNCats : Nat) (barmode : String) : Nat :=
  max 300 (min 2560 (max (baseHeight maxNSamples maxNCats barmode) (19 * maxNCats) + 140))

/-- Claim C2's height formula amended with the 660-pixel pre-margin cap
that the code (bar.py line 148) applies before adding the 140-pixel
title/footer margin: clamp(min(660, max(base, legend)) + 140, [300, 2560]). -/
def claimedHeightC2Amended (maxNSamples maxNCats : Nat) (barmode : String) : Nat :=
  max 300 (min 2560 (min 660 (max (baseHeight maxNSamples maxNCats barmode) (19 * maxNCats)) + 140))

/-- Python's built-in `max` over a sequence. The code only ever applies it
to non-empty generators (Python raises `ValueError` on an empty one), which
the theorems guarantee through non-emptiness hypotheses; the `[]` case here
is an arbitrary default. -/
def pymax : List ℚ → ℚ
  | [] => 0
  | x :: xs => xs.foldl max x

/-- Python's built-in `min` over a sequence; see `pymax`. -/
def pymin : List ℚ → ℚ
  | [] => 0
  | x :: xs => xs.foldl min x

/-- Reads `cat["data"][i]` as a rational. Out-of-range indices and NaN both
fall to 0; the theorems' hypotheses (index below the sample count, value
lists as long as the sample list) keep usage within the in-range case, as
the `assert` in `Dataset.create` does for the Python code. -/
def vget (d : List Val) (i : Nat) : ℚ :=
  (d.getD i none).getD 0

/-- The positive part `v if v > 0 else 0` (bar.py line 204). -/
def posOnly (q : ℚ) : ℚ := if q > 0 then q else 0

/-- The negative part `v if v < 0 else 0` (bar.py line 208). -/
def negOnly (q : ℚ) : ℚ := if q < 0 then q else 0

/-- Grouped-mode absolute axis maximum (bar.py line 199):
`max(max(cat["data"][i] for cat in cats) for i in range(len(samples)))`. -/
def xmaxGrouped (cats : List (List Val)) (n : Nat) : ℚ :=
  pymax ((List.range n).map (fun i => pymax (cats.map (fun d => vget d i))))

/-- Grouped-mode absolute axis minimum (bar.py line 200). -/
def xminGrouped (cats : List (List Val)) (n : Nat) : ℚ :=
  pymin ((List.range n).map (fun i => pymin (cats.map (fun d => vget d i))))

/-- Stacked ("relative") mode absolute axis maximum (bar.py lines 203-206):
the maximum over samples of the sum of positive category values there. -/
def xmaxStacked (cats : List (List Val)) (n : Nat) : ℚ :=
  pymax ((List.range n).map (fun i => (cats.map (fun d => posOnly (vget d i))).sum))

/-- Stacked ("relative") mode absolute axis minimum (bar.py lines 207-210):
the minimum over samples of the sum of negative category values there. -/
def xminStacked (cats : List (List Val)) (n : Nat) : ℚ :=
  pymin ((List.range n).map (fun i => (cats.map (fun d => negOnly (vget d i))).sum))

/-- The contribution of one value to a per-sample total (bar.py 260-262):
`abs(val)` for a number, nothing (`0`) for NaN, which the code skips via
`if not math.isnan(val)`. -/
def nabs : Val → ℚ
  | some x => |x|
  | none => 0

/-- One pass of the totals loop (bar.py 259-262): adds each value's
`nabs` contribution into the running per-sample sums. -/
def updateSums (sums : List ℚ) (data : List Val) : List ℚ :=
  List.zipWith (fun s v => s + nabs v) sums data

/-- Per-sample totals (bar.py 257-262): `sums` starts as a zero for every
entry of the first category's data list, then every category's values are
accumulated index-wise. -/
def computeSums (cats : List (List Val)) : List ℚ :=
  cats.foldl updateSums (List.replicate (cats.headD []).length (0 : ℚ))

/-- The percentage transform for one category (bar.py 264-273): at each
sample index, 0 when that sample's total is zero, otherwise
`val / sum_for_sample * 100` (NaN stays NaN in the nonzero branch, since
Python's division propagates it; the zero branch overwrites it with 0). -/
def dataPct (sums : List ℚ) (data : List Val) : List Val :=
  List.zipWith (fun v s => if s = 0 then some 0 else v.map (fun x => x / s * 100)) data sums

/-- All categories' percent arrays for one dataset (`cat["data_pct"]`). -/
def catsDataPct (cats : List (List Val)) : List (List Val) :=
  cats.map (fun d => dataPct (computeSums cats) d)

/-- Percent-mode minimum bound (bar.py 275-284). The code stores only this
minimum into `dataset.pct_range["xaxis"]["min"]`; no percent-mode maximum
is computed. Grouped mode takes the min of per-category percent values,
stacked mode the min over samples of the sum of negative percent values. -/
def pctXMin (barmode : String) (cats : List (List Val)) (n : Nat) : ℚ :=
  if barmode = "group" then
    pymin ((List.range n).map (fun i => pymin ((catsDataPct cats).map (fun d => vget d i))))
  else
    pymin ((List.range n).map (fun i => ((catsDataPct cats).map (fun d => negOnly (vget d i))).sum))

/-- The sort key of the log-mode reordering (bar.py line 289):
`sum(x["data"])`. NaN-free data is assumed by the theorems that use this
(Python's `sum` over a list containing NaN is NaN, and sorting on NaN keys
has no coherent order), so `none` falls to 0 here. -/
def totalSum (d : List Val) : ℚ :=
  (d.map (fun v => v.getD 0)).sum

/-- The comparison used by the log-mode reordering: at most, by the total
value sum, as a `Bool` so it can drive `List.mergeSort`. -/
def logLe (a b : List Val) : Bool :=
  decide (totalSum a ≤ totalSum b)

/-- Log-mode category reordering (bar.py line 289):
`dataset.cats.sort(key=lambda x: sum(x["data"]))`, an ascending stable sort
by total value sum. -/
def sortCatsForLog (cats : List (List Val)) : List (List Val) :=
  cats.mergeSort logLe

/-- The final legend `traceorder` value: initialised on bar.py line 187 to
`"normal" if barmode != "group" else "reversed"`, then overwritten with
`"reversed"` on line 291 when a log tab is requested (that assignment sits
inside the per-dataset loop, hence the dataset-count argument). -/
def legendTraceorder (barmode : String) (addLogTab : Bool) (nDatasets : Nat) : String :=
  if addLogTab ∧ nDatasets > 0 then "reversed"
  else if barmode ≠ "group" then "normal" else "reversed"

/-- Scales the value at sample index `i` by `k`, leaving other samples
unchanged; used to state the scale-invariance claim about percentages. -/
def scaleRow (k : ℚ) : Nat → List Val → List Val
  | _, [] => []
  | 0, v :: vs => v.map (fun x => k * x) :: vs
  | j + 1, v :: vs => v :: scaleRow k j vs

/-- Scales every category's value at sample index `i` by `k`. -/
def scaleCats (k : ℚ) (i : Nat) (cats : List (List Val)) : List (List Val) :=
  cats.map (scaleRow k i)

/-! ### Helper lemmas -/

theorem createCheck_ok_iff (samples : List String) (cats : List RawCat)
    (hnames : ∀ c ∈ cats, c.name ≠ none) :
    createCheck samples cats = .ok () ↔ ∀ c ∈ cats, c.data.length = samples.length := by
  induction cats with
  | nil => simp [createCheck]
  | cons c cs ih =>
    have hc : ¬c.name = none := hnames c (List.mem_cons_self c cs)
    have ihcs := ih (fun x hx => hnames x (List.mem_cons_of_mem c hx))
    simp only [createCheck, if_neg hc]
    by_cases h : samples.length = c.data.length
    · rw [if_pos h, ihcs]
      constructor
      · intro hall x hx
        rcases List.mem_cons.mp hx with rfl | hx
        · exact h.symm
        · exact hall x hx
      · intro hall x hx
        exact hall x (List.mem_cons_of_mem c hx)
    · rw [if_neg h]
      constructor
      · intro habs
        exact absurd habs (by simp)
      · intro hall
        exact absurd (hall c (List.mem_cons_self c cs)).symm h

theorem completeData_eq_append (n : Nat) (data : List Val) (h : data.length ≤ n) :
    completeData n data = data ++ List.replicate (n - data.length) (some 0) := by
  unfold completeData
  by_cases hlt : data.length < n
  · rw [if_pos hlt]
  · rw [if_neg hlt]
    have h0 : n - data.length = 0 := by omega
    simp [h0]

/-! ### C1: shape check and zero-completion -/

/-- Claim C1 as stated is false: the claim says construction accepts every
category whose value list is no longer than the sample list, but
`Dataset.create` asserts `len(samples) == len(cat["data"])`, so the
category `{name: "X", data: [5]}` against the 3 samples `["A","B","C"]` is
rejected with an `AssertionError` even though its length 1 is at most 3. -/
theorem C1_counterexample :
    ([some (5 : ℚ)] : List Val).length ≤ (["A", "B", "C"] : List String).length ∧
      createCheck ["A", "B", "C"] [{ name := some "X", data := [some 5] }]
        = .error "AssertionError: len(samples) != len(cat[data])" ∧
      createCheck ["A", "B", "C"] [{ name := some "X", data := [some 5] }] ≠ .ok () := by
  refine ⟨by decide, by simp [createCheck], ?_⟩
  simp [createCheck]

/-- Claim C1 (amended): `Dataset.create` accepts exactly the categories
whose raw value-list length equals the sample count (any mismatch, shorter
or longer, fails the assertion); the completion stage, taken on its own,
right-pads a value list that is at most as long as the sample count with
zeros up to the sample count, so `[5]` against 3 samples completes to
`[5, 0, 0]`. -/
theorem C1_amended (samples : List String) (cats : List RawCat)
    (hnames : ∀ c ∈ cats, c.name ≠ none) (n : Nat) (data : List Val)
    (hlen : data.length ≤ n) :
    (createCheck samples cats = .ok () ↔ ∀ c ∈ cats, c.data.length = samples.length) ∧
      completeData n data = data ++ List.replicate (n - data.length) (some 0) :=
  ⟨createCheck_ok_iff samples cats hnames, completeData_eq_append n data hlen⟩

/-- Witness for `C1_amended` at the spec's scenario: one full-length
category against three samples, and the completion of `[5]` to `[5,0,0]`. -/
theorem C1_amended_witness :
    (createCheck ["A", "B", "C"] [{ name := some "X", data := [some 1, some 2, some 3] }]
        = .ok () ↔
      ∀ c ∈ [({ name := some "X", data := [some 1, some 2, some 3] } : RawCat)],
        c.data.length = (["A", "B", "C"] : List String).length) ∧
      completeData 3 [some 5]
        = [some 5] ++ List.replicate (3 - ([some (5 : ℚ)] : List Val).length) (some 0) :=
  C1_amended ["A", "B", "C"] [{ name := some "X", data := [some 1, some 2, some 3] }]
    (by intro c hc; simp at hc; subst hc; simp) 3 [some 5] (by decide)

/-! ### C2: the height formula -/

/-- Claim C2 as stated is false: at 60 samples, one category, stacked mode,
the claimed formula clamp(max(base, legend) + 140, [300, 2560]) gives 1040
(base = 60 × 15 = 900), but the code caps the pre-margin height at 660
before adding the 140-pixel margin and returns 800. -/
theorem C2_counterexample :
    plotHeight 60 1 "relative" = 800 ∧ claimedHeightC2 60 1 "relative" = 1040 ∧
      plotHeight 60 1 "relative" ≠ claimedHeightC2 60 1 "relative" := by
  refine ⟨by decide, by decide, by decide⟩

/-- Claim C2 (amended): the final chart height equals
clamp(min(660, max(base height, legend height)) + 140, [300, 2560]), with
base height = effective bar count × per-bar allowance (15px for ≥30 bars,
20px for ≥20, 25px for ≥10, 30px for ≥5, else 35px), effective bar count =
sample count in stacked mode and sample count × maximum category count in
grouped mode, and legend height = 19px × maximum category count. -/
theorem C2_amended (maxNSamples maxNCats : Nat) (barmode : String) :
    plotHeight maxNSamples maxNCats barmode = claimedHeightC2Amended maxNSamples maxNCats barmode := by
  simp only [plotHeight, claimedHeightC2Amended]
  omega

/-! ### C3: barmode selection -/

/-- Claim C3 as stated is false: when the `stacking` key is absent from the
plot configuration, the claim selects grouped mode, but the code leaves the
barmode at its initial `"relative"` (stacked) value, because the condition
`"stacking" in pconfig` fails before the value is even inspected. -/
theorem C3_counterexample :
    claimedGroupedC3 none = true ∧ barmodeOf none = "relative" ∧ barmodeOf none ≠ "group" := by
  refine ⟨by decide, by decide, by decide⟩

/-- Claim C3 (amended): grouped mode is selected exactly when the
`stacking` key is present in the configuration with value `"group"`,
`"normal"`, or `None`; any other present value, and an absent key, select
stacked (`"relative"`) mode. -/
theorem C3_amended (stacking : Option (Option String)) :
    barmodeOf stacking = "group" ↔
      stacking = some (some "group") ∨ stacking = some (some "normal") ∨ stacking = some none := by
  rcases stacking with _ | v
  · simp [barmodeOf]
  · simp only [barmodeOf, Option.some.injEq]
    by_cases h : v = some "group" ∨ v = some "normal" ∨ v = none
    · rw [if_pos h]
      simpa using h
    · rw [if_neg h]
      constructor
      · intro habs
        exact absurd habs (by decide)
      · intro hP
        exact absurd hP h

/-! ### C4: height monotonicity and range -/

/-- Claim C4 as stated is false: with one category in stacked mode, 9
samples give height 9 × 30 + 140 = 410 while 10 samples give
10 × 25 + 140 = 390, because the per-bar allowance drops from 30px to 25px
at the 10-bar threshold faster than the bar count grows; the height is not
monotonically non-decreasing in the sample count. -/
theorem C4_counterexample :
    plotHeight 9 1 "relative" = 410 ∧ plotHeight 10 1 "relative" = 390 ∧
      ¬plotHeight 9 1 "relative" ≤ plotHeight 10 1 "relative" := by
  refine ⟨by decide, by decide, by decide⟩

/-- Claim C4 (amended): for fixed category count and barmode the height is
monotonically non-decreasing in the sample count as long as the two sample
counts fall in the same per-bar-allowance band (the monotonicity is broken
only at the 5/10/20/30-bar allowance steps), and the height always lies in
the inclusive range [300, 2560]. -/
theorem C4_amended (maxNCats : Nat) (barmode : String) (n₁ n₂ : Nat) (h : n₁ ≤ n₂)
    (hsz : n_bars_to_size (effNBars n₁ maxNCats barmode)
      = n_bars_to_size (effNBars n₂ maxNCats barmode)) :
    plotHeight n₁ maxNCats barmode ≤ plotHeight n₂ maxNCats barmode ∧
      300 ≤ plotHeight n₁ maxNCats barmode ∧ plotHeight n₁ maxNCats barmode ≤ 2560 := by
  have hm : effNBars n₁ maxNCats barmode ≤ effNBars n₂ maxNCats barmode := by
    unfold effNBars
    split
    · exact Nat.mul_le_mul_right _ h
    · exact h
  have hb : baseHeight n₁ maxNCats barmode ≤ baseHeight n₂ maxNCats barmode := by
    unfold baseHeight
    rw [hsz]
    exact Nat.mul_le_mul_right _ hm
  simp only [plotHeight]
  omega

/-- Witness for `C4_amended`: 5 and 6 samples share the 30px band. -/
theorem C4_amended_witness :
    plotHeight 5 1 "relative" ≤ plotHeight 6 1 "relative" ∧
      300 ≤ plotHeight 5 1 "relative" ∧ plotHeight 5 1 "relative" ≤ 2560 :=
  C4_amended 1 "relative" 5 6 (by decide) (by decide)

theorem foldl_max_eq_self_or_mem (a : ℚ) (xs : List ℚ) :
    xs.foldl max a = a ∨ xs.foldl max a ∈ xs := by
  induction xs generalizing a with
  | nil => exact Or.inl rfl
  | cons y ys ih =>
    rw [List.foldl_cons]
    rcases ih (max a y) with h | h
    · rcases max_choice a y with hm | hm
      · exact Or.inl (h.trans hm)
      · exact Or.inr (by rw [h, hm]; exact List.mem_cons_self _ _)
    · exact Or.inr (List.mem_cons_of_mem _ h)

theorem le_foldl_max (a : ℚ) (xs : List ℚ) : a ≤ xs.foldl max a := by
  induction xs generalizing a with
  | nil => exact le_refl a
  | cons y ys ih => exact le_trans (le_max_left a y) (ih (max a y))

theorem le_foldl_max_of_mem {x : ℚ} {xs : List ℚ} (h : x ∈ xs) (a : ℚ) :
    x ≤ xs.foldl max a := by
  induction xs generalizing a with
  | nil => cases h
  | cons y ys ih =>
    rw [List.foldl_cons]
    rcases List.mem_cons.mp h with rfl | h
    · exact le_trans (le_max_right a x) (le_foldl_max _ ys)
    · exact ih h (max a y)

theorem foldl_min_eq_self_or_mem (a : ℚ) (xs : List ℚ) :
    xs.foldl min a = a ∨ xs.foldl min a ∈ xs := by
  induction xs generalizing a with
  | nil => exact Or.inl rfl
  | cons y ys ih =>
    rw [List.foldl_cons]
    rcases ih (min a y) with h | h
    · rcases min_choice a y with hm | hm
      · exact Or.inl (h.trans hm)
      · exact Or.inr (by rw [h, hm]; exact List.mem_cons_self _ _)
    · exact Or.inr (List.mem_cons_of_mem _ h)

theorem foldl_min_le (a : ℚ) (xs : List ℚ) : xs.foldl min a ≤ a := by
  induction xs generalizing a with
  | nil => exact le_refl a
  | cons y ys ih => exact le_trans (ih (min a y)) (min_le_left a y)

theorem foldl_min_le_of_mem {x : ℚ} {xs : List ℚ} (h : x ∈ xs) (a : ℚ) :
    xs.foldl min a ≤ x := by
  induction xs generalizing a with
  | nil => cases h
  | cons y ys ih =>
    rw [List.foldl_cons]
    rcases List.mem_cons.mp h with rfl | h
    · exact le_trans (foldl_min_le _ ys) (min_le_right a x)
    · exact ih h (min a y)

theorem pymax_mem {l : List ℚ} (h : l ≠ []) : pymax l ∈ l := by
  cases l with
  | nil => exact absurd rfl h
  | cons x xs =>
    show xs.foldl max x ∈ x :: xs
    rcases foldl_max_eq_self_or_mem x xs with h1 | h1
    · rw [h1]; exact List.mem_cons_self _ _
    · exact List.mem_cons_of_mem _ h1

theorem le_pymax {l : List ℚ} {x : ℚ} (h : x ∈ l) : x ≤ pymax l := by
  cases l with
  | nil => cases h
  | cons y ys =>
    show x ≤ ys.foldl max y
    rcases List.mem_cons.mp h with rfl | h
    · exact le_foldl_max x ys
    · exact le_foldl_max_of_mem h y

theorem pymin_mem {l : List ℚ} (h : l ≠ []) : pymin l ∈ l := by
  cases l with
  | nil => exact absurd rfl h
  | cons x xs =>
    show xs.foldl min x ∈ x :: xs
    rcases foldl_min_eq_self_or_mem x xs with h1 | h1
    · rw [h1]; exact List.mem_cons_self _ _
    · exact List.mem_cons_of_mem _ h1

theorem pymin_le {l : List ℚ} {x : ℚ} (h : x ∈ l) : pymin l ≤ x := by
  cases l with
  | nil => cases h
  | cons y ys =>
    show ys.foldl min y ≤ x
    rcases List.mem_cons.mp h with rfl | h
    · exact foldl_min_le x ys
    · exact foldl_min_le_of_mem h y

theorem pymax_range_isGreatest (f : Nat → ℚ) {n : Nat} (hn : 0 < n) :
    IsGreatest {q : ℚ | ∃ i < n, q = f i} (pymax ((List.range n).map f)) := by
  constructor
  · have hne : (List.range n).map f ≠ [] := by
      simp only [ne_eq, List.map_eq_nil_iff, List.range_eq_nil]
      omega
    rcases List.mem_map.mp (pymax_mem hne) with ⟨i, hi, hfi⟩
    exact ⟨i, List.mem_range.mp hi, hfi.symm⟩
  · rintro q ⟨i, hi, rfl⟩
    exact le_pymax (List.mem_map_of_mem f (List.mem_range.mpr hi))

theorem pymin_range_isLeast (f : Nat → ℚ) {n : Nat} (hn : 0 < n) :
    IsLeast {q : ℚ | ∃ i < n, q = f i} (pymin ((List.range n).map f)) := by
  constructor
  · have hne : (List.range n).map f ≠ [] := by
      simp only [ne_eq, List.map_eq_nil_iff, List.range_eq_nil]
      omega
    rcases List.mem_map.mp (pymin_mem hne) with ⟨i, hi, hfi⟩
    exact ⟨i, List.mem_range.mp hi, hfi.symm⟩
  · rintro q ⟨i, hi, rfl⟩
    exact pymin_le (List.mem_map_of_mem f (List.mem_range.mpr hi))

theorem nested_pymax_isGreatest (rows : List (List Val)) {n : Nat} (hr : rows ≠ [])
    (hn : 0 < n) :
    IsGreatest {q : ℚ | ∃ i < n, ∃ d ∈ rows, q = vget d i}
      (pymax ((List.range n).map (fun i => pymax (rows.map (fun d => vget d i))))) := by
  have houter := pymax_range_isGreatest (fun i => pymax (rows.map (fun d => vget d i))) hn
  constructor
  · rcases houter.1 with ⟨i, hi, hout⟩
    have hinner : rows.map (fun d => vget d i) ≠ [] := by
      simp only [ne_eq, List.map_eq_nil_iff]
      exact hr
    rcases List.mem_map.mp (pymax_mem hinner) with ⟨d, hd, hdv⟩
    exact ⟨i, hi, d, hd, hout.trans hdv.symm⟩
  · rintro q ⟨i, hi, d, hd, rfl⟩
    have h1 : vget d i ≤ pymax (rows.map (fun d => vget d i)) :=
      le_pymax (List.mem_map_of_mem _ hd)
    exact le_trans h1 (houter.2 ⟨i, hi, rfl⟩)

theorem nested_pymin_isLeast (rows : List (List Val)) {n : Nat} (hr : rows ≠ [])
    (hn : 0 < n) :
    IsLeast {q : ℚ | ∃ i < n, ∃ d ∈ rows, q = vget d i}
      (pymin ((List.range n).map (fun i => pymin (rows.map (fun d => vget d i))))) := by
  have houter := pymin_range_isLeast (fun i => pymin (rows.map (fun d => vget d i))) hn
  constructor
  · rcases houter.1 with ⟨i, hi, hout⟩
    have hinner : rows.map (fun d => vget d i) ≠ [] := by
      simp only [ne_eq, List.map_eq_nil_iff]
      exact hr
    rcases List.mem_map.mp (pymin_mem hinner) with ⟨d, hd, hdv⟩
    exact ⟨i, hi, d, hd, hout.trans hdv.symm⟩
  · rintro q ⟨i, hi, d, hd, rfl⟩
    have h1 : pymin (rows.map (fun d => vget d i)) ≤ vget d i :=
      pymin_le (List.mem_map_of_mem _ hd)
    exact le_trans (houter.2 ⟨i, hi, rfl⟩) h1

/-! ### C5: absolute axis ranges -/

/-- Claim C5: in grouped mode the allowed absolute-axis maximum (minimum)
is the greatest (least) single category value over all samples and
categories; in stacked mode the maximum (minimum) is the greatest (least),
over samples, of the sum of only-positive (only-negative) category values
at that sample; and on the scenario of 3 samples with categories
X = [1,2,3] and Y = [3,2,1] in stacked mode the maximum is 4 and the
minimum is 0. -/
theorem C5_axis_ranges (cats : List (List Val)) (n : Nat) (hc : cats ≠ []) (hn : 0 < n) :
    IsGreatest {q : ℚ | ∃ i < n, ∃ d ∈ cats, q = vget d i} (xmaxGrouped cats n) ∧
      IsLeast {q : ℚ | ∃ i < n, ∃ d ∈ cats, q = vget d i} (xminGrouped cats n) ∧
      IsGreatest {q : ℚ | ∃ i < n, q = (cats.map (fun d => posOnly (vget d i))).sum}
        (xmaxStacked cats n) ∧
      IsLeast {q : ℚ | ∃ i < n, q = (cats.map (fun d => negOnly (vget d i))).sum}
        (xminStacked cats n) ∧
      xmaxStacked [[some 1, some 2, some 3], [some 3, some 2, some 1]] 3 = 4 ∧
      xminStacked [[some 1, some 2, some 3], [some 3, some 2, some 1]] 3 = 0 := by
  refine ⟨nested_pymax_isGreatest cats hc hn, nested_pymin_isLeast cats hc hn,
    pymax_range_isGreatest _ hn, pymin_range_isLeast _ hn, ?_, ?_⟩
  · norm_num [xmaxStacked, pymax, vget, posOnly, List.range_succ]
  · norm_num [xminStacked, pymin, vget, negOnly, List.range_succ]

/-- Witness for `C5_axis_ranges` at the spec's scenario input. -/
theorem C5_axis_ranges_witness :
    IsGreatest
        {q : ℚ | ∃ i < 3, ∃ d ∈ [[some (1 : ℚ), some 2, some 3], [some 3, some 2, some 1]],
          q = vget d i}
        (xmaxGrouped [[some 1, some 2, some 3], [some 3, some 2, some 1]] 3) ∧
      IsLeast
        {q : ℚ | ∃ i < 3, ∃ d ∈ [[some (1 : ℚ), some 2, some 3], [some 3, some 2, some 1]],
          q = vget d i}
        (xminGrouped [[some 1, some 2, some 3], [some 3, some 2, some 1]] 3) ∧
      IsGreatest
        {q : ℚ | ∃ i < 3,
          q = (([[some (1 : ℚ), some 2, some 3], [some 3, some 2, some 1]]).map
            (fun d => posOnly (vget d i))).sum}
        (xmaxStacked [[some 1, some 2, some 3], [some 3, some 2, some 1]] 3) ∧
      IsLeast
        {q : ℚ | ∃ i < 3,
          q = (([[some (1 : ℚ), some 2, some 3], [some 3, some 2, some 1]]).map
            (fun d => negOnly (vget d i))).sum}
        (xminStacked [[some 1, some 2, some 3], [some 3, some 2, some 1]] 3) ∧
      xmaxStacked [[some 1, some 2, some 3], [some 3, some 2, some 1]] 3 = 4 ∧
      xminStacked [[some 1, some 2, some 3], [some 3, some 2, some 1]] 3 = 0 :=
  C5_axis_ranges [[some 1, some 2, some 3], [some 3, some 2, some 1]] 3
    (List.cons_ne_nil _ _) (by decide)

/-! ### C6: percentage transform -/

theorem length_updateSums (sums : List ℚ) (data : List Val) (h : data.length = sums.length) :
    (updateSums sums data).length = sums.length := by
  simp [updateSums, h]

theorem foldl_updateSums_length (cats : List (List Val)) (sums : List ℚ)
    (h : ∀ d ∈ cats, d.length = sums.length) :
    (cats.foldl updateSums sums).length = sums.length := by
  induction cats generalizing sums with
  | nil => rfl
  | cons c cs ih =>
    rw [List.foldl_cons]
    have hc : c.length = sums.length := h c (List.mem_cons_self _ _)
    have hu : (updateSums sums c).length = sums.length := length_updateSums sums c hc
    rw [ih (updateSums sums c) (fun d hd => by rw [h d (List.mem_cons_of_mem _ hd), hu]), hu]

theorem updateSums_getD (sums : List ℚ) (data : List Val) (i : Nat)
    (h : data.length = sums.length) (hi : i < sums.length) :
    (updateSums sums data).getD i 0 = sums.getD i 0 + nabs (data.getD i none) := by
  have hd : i < data.length := by omega
  simp [updateSums, List.getD_eq_getElem?_getD, List.getElem?_zipWith',
    List.getElem?_eq_getElem hi, List.getElem?_eq_getElem hd]

theorem foldl_updateSums_getD (cats : List (List Val)) (sums : List ℚ)
    (h : ∀ d ∈ cats, d.length = sums.length) (i : Nat) (hi : i < sums.length) :
    (cats.foldl updateSums sums).getD i 0
      = sums.getD i 0 + (cats.map (fun c => nabs (c.getD i none))).sum := by
  induction cats generalizing sums with
  | nil => simp
  | cons c cs ih =>
    rw [List.foldl_cons, List.map_cons, List.sum_cons]
    have hc : c.length = sums.length := h c (List.mem_cons_self _ _)
    have hu : (updateSums sums c).length = sums.length := length_updateSums sums c hc
    rw [ih (updateSums sums c) (fun d hd => by rw [h d (List.mem_cons_of_mem _ hd), hu]) (hu ▸ hi)]
    rw [updateSums_getD sums c i hc hi]
    ring

theorem computeSums_length (cats : List (List Val)) (n : Nat) (hne : cats ≠ [])
    (h : ∀ d ∈ cats, d.length = n) : (computeSums cats).length = n := by
  unfold computeSums
  have hlen : (List.replicate (cats.headD []).length (0 : ℚ)).length = n := by
    cases cats with
    | nil => exact absurd rfl hne
    | cons c cs => simp [h c (List.mem_cons_self _ _)]
  rw [foldl_updateSums_length cats _ (fun d hd => by rw [h d hd, hlen]), hlen]

theorem computeSums_getD (cats : List (List Val)) (n : Nat) (hne : cats ≠ [])
    (h : ∀ d ∈ cats, d.length = n) (i : Nat) (hi : i < n) :
    (computeSums cats).getD i 0 = (cats.map (fun c => nabs (c.getD i none))).sum := by
  unfold computeSums
  have hlen : (List.replicate (cats.headD []).length (0 : ℚ)).length = n := by
    cases cats with
    | nil => exact absurd rfl hne
    | cons c cs => simp [h c (List.mem_cons_self _ _)]
  rw [foldl_updateSums_getD cats _ (fun d hd => by rw [h d hd, hlen]) i (by omega)]
  have hz : (List.replicate (cats.headD []).length (0 : ℚ)).getD i 0 = 0 := by
    rw [List.getD_eq_getElem?_getD, List.getElem?_replicate]
    split <;> rfl
  rw [hz, zero_add]

theorem dataPct_getD (sums : List ℚ) (data : List Val) (i : Nat)
    (h1 : i < data.length) (h2 : i < sums.length) :
    (dataPct sums data).getD i none
      = (if sums.getD i 0 = 0 then some 0
         else (data.getD i none).map (fun x => x / sums.getD i 0 * 100)) := by
  simp [dataPct, List.getD_eq_getElem?_getD, List.getElem?_zipWith',
    List.getElem?_eq_getElem h1, List.getElem?_eq_getElem h2]

/-- Claim C6: when percentage mode is active, each sample's total is the
sum of the absolute values of all non-NaN category values at that sample
index (NaN contributes nothing); each category's percent value at a sample
is 0 when the total is zero and otherwise (raw value / total) × 100 (sign
preserved, NaN raw values propagate); and for X = [1,2,3], Y = [3,2,1] the
percent arrays are X = [25,50,75] and Y = [75,50,25]. -/
theorem C6_percentages (cats : List (List Val)) (n : Nat) (hne : cats ≠ [])
    (h : ∀ d ∈ cats, d.length = n) (i : Nat) (hi : i < n) (d : List Val) (hd : d ∈ cats) :
    (computeSums cats).getD i 0 = (cats.map (fun c => nabs (c.getD i none))).sum ∧
      (dataPct (computeSums cats) d).getD i none
        = (if (cats.map (fun c => nabs (c.getD i none))).sum = 0 then some 0
           else (d.getD i none).map
             (fun x => x / (cats.map (fun c => nabs (c.getD i none))).sum * 100)) ∧
      catsDataPct [[some 1, some 2, some 3], [some 3, some 2, some 1]]
        = [[some 25, some 50, some 75], [some 75, some 50, some 25]] := by
  have hs := computeSums_getD cats n hne h i hi
  refine ⟨hs, ?_, ?_⟩
  · rw [dataPct_getD (computeSums cats) d i (by rw [h d hd]; exact hi)
      (by rw [computeSums_length cats n hne h]; exact hi), hs]
  · norm_num [catsDataPct, dataPct, computeSums, updateSums, nabs,
      List.replicate_succ, List.zipWith_cons_cons]

/-- Witness for `C6_percentages` at the spec's scenario, sample index 0 of
category X. -/
theorem C6_percentages_witness :
    (computeSums [[some 1, some 2, some 3], [some 3, some 2, some 1]]).getD 0 0
        = (([[some (1 : ℚ), some 2, some 3], [some 3, some 2, some 1]]).map
          (fun c => nabs (c.getD 0 none))).sum ∧
      (dataPct (computeSums [[some 1, some 2, some 3], [some 3, some 2, some 1]])
            [some 1, some 2, some 3]).getD 0 none
        = (if (([[some (1 : ℚ), some 2, some 3], [some 3, some 2, some 1]]).map
              (fun c => nabs (c.getD 0 none))).sum = 0 then some 0
           else (([some (1 : ℚ), some 2, some 3] : List Val).getD 0 none).map
             (fun x => x / (([[some (1 : ℚ), some 2, some 3], [some 3, some 2, some 1]]).map
               (fun c => nabs (c.getD 0 none))).sum * 100)) ∧
      catsDataPct [[some 1, some 2, some 3], [some 3, some 2, some 1]]
        = [[some 25, some 50, some 75], [some 75, some 50, some 25]] :=
  C6_percentages [[some 1, some 2, some 3], [some 3, some 2, some 1]] 3
    (List.cons_ne_nil _ _)
    (by intro d hd; simp only [List.mem_cons, List.not_mem_nil, or_false] at hd
        rcases hd with rfl | rfl <;> rfl)
    0 (by decide) [some 1, some 2, some 3] (List.mem_cons_self _ _)

/-! ### C7: percent-mode minimum bound -/

/-- Claim C7: the percent-mode axis bound stored by the code is only a
minimum (no percent-mode maximum is computed); in grouped mode it is the
least per-category percent value over all samples, and in stacked
("relative") mode it is the least, over samples, of the sum of
only-negative percent values at that sample. -/
theorem C7_pct_min (cats : List (List Val)) (n : Nat) (hc : cats ≠ []) (hn : 0 < n) :
    IsLeast {q : ℚ | ∃ i < n, ∃ d ∈ catsDataPct cats, q = vget d i} (pctXMin "group" cats n) ∧
      IsLeast {q : ℚ | ∃ i < n,
          q = ((catsDataPct cats).map (fun d => negOnly (vget d i))).sum}
        (pctXMin "relative" cats n) := by
  have hpc : catsDataPct cats ≠ [] := by
    simp only [catsDataPct, ne_eq, List.map_eq_nil_iff]
    exact hc
  constructor
  · rw [pctXMin, if_pos rfl]
    exact nested_pymin_isLeast (catsDataPct cats) hpc hn
  · rw [pctXMin, if_neg (by decide)]
    exact pymin_range_isLeast _ hn

/-- Witness for `C7_pct_min` at the spec's scenario input. -/
theorem C7_pct_min_witness :
    IsLeast
        {q : ℚ | ∃ i < 3,
          ∃ d ∈ catsDataPct [[some 1, some 2, some 3], [some 3, some 2, some 1]], q = vget d i}
        (pctXMin "group" [[some 1, some 2, some 3], [some 3, some 2, some 1]] 3) ∧
      IsLeast
        {q : ℚ | ∃ i < 3,
          q = ((catsDataPct [[some 1, some 2, some 3], [some 3, some 2, some 1]]).map
            (fun d => negOnly (vget d i))).sum}
        (pctXMin "relative" [[some 1, some 2, some 3], [some 3, some 2, some 1]] 3) :=
  C7_pct_min [[some 1, some 2, some 3], [some 3, some 2, some 1]] 3
    (List.cons_ne_nil _ _) (by decide)

/-! ### C8: scale invariance of percentages -/

theorem scaleRow_length (k : ℚ) (j : Nat) (d : List Val) :
    (scaleRow k j d).length = d.length := by
  induction d generalizing j with
  | nil => cases j <;> rfl
  | cons v vs ih =>
    cases j with
    | zero => rfl
    | succ j => simp [scaleRow, ih j]

theorem scaleRow_getElem? (k : ℚ) (j : Nat) (d : List Val) (m : Nat) :
    (scaleRow k j d)[m]?
      = if m = j then (d[m]?).map (Option.map (fun x => k * x)) else d[m]? := by
  induction d generalizing j m with
  | nil =>
    cases j <;> simp [scaleRow]
  | cons v vs ih =>
    cases j with
    | zero =>
      cases m with
      | zero => simp [scaleRow]
      | succ m => simp [scaleRow]
    | succ j =>
      cases m with
      | zero => simp [scaleRow]
      | succ m => simpa [scaleRow] using ih j m

theorem nabs_scaleRow_getD (k : ℚ) (i : Nat) (c : List Val) :
    nabs ((scaleRow k i c).getD i none) = |k| * nabs (c.getD i none) := by
  rw [List.getD_eq_getElem?_getD, List.getD_eq_getElem?_getD, scaleRow_getElem?, if_pos rfl]
  have hopt : ∀ o : Option Val,
      nabs ((Option.map (Option.map (fun x => k * x)) o).getD none) = |k| * nabs (o.getD none) := by
    intro o
    cases o with
    | none => simp [nabs]
    | some v =>
      cases v with
      | none => simp [nabs]
      | some x => simp [nabs, abs_mul]
  exact hopt _

theorem computeSums_scaleCats_getD (cats : List (List Val)) (n : Nat) (hne : cats ≠ [])
    (h : ∀ d ∈ cats, d.length = n) (i : Nat) (hi : i < n) (k : ℚ) :
    (computeSums (scaleCats k i cats)).getD i 0 = |k| * (computeSums cats).getD i 0 := by
  have hs : ∀ d ∈ scaleCats k i cats, d.length = n := by
    intro d hd
    rcases List.mem_map.mp hd with ⟨c, hc, rfl⟩
    rw [scaleRow_length]
    exact h c hc
  have hne2 : scaleCats k i cats ≠ [] := by
    simp only [scaleCats, ne_eq, List.map_eq_nil_iff]
    exact hne
  rw [computeSums_getD _ n hne2 hs i hi, computeSums_getD cats n hne h i hi]
  rw [scaleCats, List.map_map]
  rw [← List.sum_map_mul_left]
  rw [show cats.map ((fun c => nabs (c.getD i none)) ∘ scaleRow k i)
      = cats.map (fun c => |k| * nabs (c.getD i none)) from
    List.map_congr_left (fun c _ => nabs_scaleRow_getD k i c)]

theorem dataPct_scale_getD (cats : List (List Val)) (n : Nat) (hne : cats ≠ [])
    (h : ∀ d ∈ cats, d.length = n) (i : Nat) (hi : i < n) (k : ℚ) (hk : 0 < k)
    (c : List Val) (hc : c ∈ cats) :
    (dataPct (computeSums (scaleCats k i cats)) (scaleRow k i c)).getD i none
      = (dataPct (computeSums cats) c).getD i none := by
  have hs : ∀ d ∈ scaleCats k i cats, d.length = n := by
    intro d hd
    rcases List.mem_map.mp hd with ⟨e, he, rfl⟩
    rw [scaleRow_length]
    exact h e he
  have hne2 : scaleCats k i cats ≠ [] := by
    simp only [scaleCats, ne_eq, List.map_eq_nil_iff]
    exact hne
  rw [dataPct_getD _ _ i (by rw [scaleRow_length, h c hc]; exact hi)
      (by rw [computeSums_length _ n hne2 hs]; exact hi),
    dataPct_getD _ _ i (by rw [h c hc]; exact hi)
      (by rw [computeSums_length cats n hne h]; exact hi)]
  rw [computeSums_scaleCats_getD cats n hne h i hi k, abs_of_pos hk]
  have hrow : (scaleRow k i c).getD i none = (c.getD i none).map (fun x => k * x) := by
    rw [List.getD_eq_getElem?_getD, List.getD_eq_getElem?_getD, scaleRow_getElem?, if_pos rfl]
    have hopt : ∀ o : Option Val,
        (Option.map (Option.map (fun x => k * x)) o).getD none
          = Option.map (fun x => k * x) (o.getD none) := by
      intro o
      cases o <;> rfl
    exact hopt _
  rw [hrow]
  by_cases h0 : (computeSums cats).getD i 0 = 0
  · rw [h0, mul_zero, if_pos rfl, if_pos rfl]
  · rw [if_neg (mul_ne_zero (ne_of_gt hk) h0), if_neg h0]
    cases hv : c.getD i none with
    | none => rfl
    | some x =>
      simp only [Option.map_some']
      rw [mul_div_mul_left x _ (ne_of_gt hk)]

/-- Claim C8: percent values are scale-invariant: multiplying every
category's raw value at one sample index by the same positive constant k
leaves every category's computed percent value at that sample unchanged. -/
theorem C8_scale_invariance (cats : List (List Val)) (n : Nat)
    (h : ∀ d ∈ cats, d.length = n) (i : Nat) (hi : i < n) (k : ℚ) (hk : 0 < k) :
    (catsDataPct (scaleCats k i cats)).map (fun d => d.getD i none)
      = (catsDataPct cats).map (fun d => d.getD i none) := by
  rcases eq_or_ne cats [] with rfl | hne
  · rfl
  simp only [catsDataPct, List.map_map]
  conv_lhs => rw [scaleCats, List.map_map]
  apply List.map_congr_left
  intro c hc
  have hpt := dataPct_scale_getD cats n hne h i hi k hk c hc
  simpa [Function.comp, scaleCats] using hpt

/-- Witness for `C8_scale_invariance`: scaling sample 0 of a two-category,
two-sample dataset by 2. -/
theorem C8_scale_invariance_witness :
    (catsDataPct (scaleCats 2 0 [[some 1, some 2], [some 3, some 2]])).map
        (fun d => d.getD 0 none)
      = (catsDataPct [[some (1 : ℚ), some 2], [some 3, some 2]]).map
        (fun d => d.getD 0 none) :=
  C8_scale_invariance [[some 1, some 2], [some 3, some 2]] 2
    (by intro d hd; simp only [List.mem_cons, List.not_mem_nil, or_false] at hd
        rcases hd with rfl | rfl <;> rfl)
    0 (by decide) 2 (by norm_num)

/-! ### C9: log-mode reordering -/

/-- Claim C9: when a log-scale tab is requested, the reordered category
list is a permutation of the original (no category added, removed, or
duplicated), is in ascending order of total value sum, and the legend
trace order is set to `"reversed"`. Stated for NaN-free data: Python's
`sum` over data containing NaN yields NaN, under which the sort keys have
no coherent order. -/
theorem C9_log_reorder (cats : List (List Val)) (barmode : String) (nDatasets : Nat)
    (hclean : ∀ d ∈ cats, ∀ v ∈ d, v ≠ none) (hn : 0 < nDatasets) :
    List.Perm (sortCatsForLog cats) cats ∧
      (sortCatsForLog cats).Pairwise (fun a b => totalSum a ≤ totalSum b) ∧
      legendTraceorder barmode true nDatasets = "reversed" := by
  refine ⟨List.mergeSort_perm cats logLe, ?_, ?_⟩
  · have htrans : ∀ a b c : List Val, logLe a b → logLe b c → logLe a c := by
      intro a b c hab hbc
      simp only [logLe, decide_eq_true_eq] at hab hbc ⊢
      exact le_trans hab hbc
    have htotal : ∀ a b : List Val, logLe a b || logLe b a := by
      intro a b
      simp only [logLe, Bool.or_eq_true, decide_eq_true_eq]
      exact le_total _ _
    have hp := List.sorted_mergeSort htrans htotal cats
    exact hp.imp (fun hab => by simpa [logLe] using hab)
  · simp [legendTraceorder, hn]

/-- Witness for `C9_log_reorder` on a two-category dataset. -/
theorem C9_log_reorder_witness :
    List.Perm (sortCatsForLog [[some 2], [some 1]]) [[some (2 : ℚ)], [some 1]] ∧
      (sortCatsForLog [[some 2], [some 1]]).Pairwise (fun a b => totalSum a ≤ totalSum b) ∧
      legendTraceorder "relative" true 1 = "reversed" :=
  C9_log_reorder [[some 2], [some 1]] "relative" 1
    (by intro d hd v hv
        simp only [List.mem_cons, List.not_mem_nil, or_false] at hd
        rcases hd with rfl | rfl <;> simp_all)
    (by decide)

/-! ### C10: the 800-pixel cap -/

/-- Claim C10: the final chart height never exceeds 800 pixels. The
pre-margin height is capped at 660 before the fixed 140-pixel title/footer
margin is added, so the height also equals the same formula with the 2560
clamp removed: the documented upper clamp of 2560 is never binding. -/
theorem C10_height_cap (maxNSamples maxNCats : Nat) (barmode : String) :
    plotHeight maxNSamples maxNCats barmode ≤ 800 ∧
      plotHeight maxNSamples maxNCats barmode
        = max 300 (min 660 (max (baseHeight maxNSamples maxNCats barmode) (19 * maxNCats)) + 140) := by
  simp only [plotHeight]
  omega
